import Mathlib

set_option maxRecDepth 100000

/-!
Verification of the session-loop / caching / retry core of the
`Speech_Recognition` real-time translator (`src/app.py`).

The development shallowly embeds the program:

* `md5Hex` implements the MD5 digest used by `hashlib.md5(text.encode()).hexdigest()`
  (bytes are UTF-8, arithmetic is `Nat` reduced mod `2 ^ 32`).
* `get_audio_filename`, `text_to_speech`, `cleanup`, `adjust_for_ambient_noise`,
  `manage_cache` embed the correspondingly named methods of `RealTimeTranslator`.
* `listen_and_translate` embeds the session loop as a fold over a trace of
  per-iteration outcomes (timeout / unintelligible / recognizer error /
  recognized speech / unclassified error / user cancellation), threading the
  in-memory translation cache and the on-disk audio cache and logging every
  call made to the external translation and synthesis engines.

External collaborators (microphone, Google recognizer, GoogleTranslator, gTTS,
playsound, the filesystem) are modelled by their observable outcomes: a pure
`translate` function, per-attempt success flags for synthesis/playback, and a
list of existing file paths standing for the cache directory.
-/

/-! ## MD5 (semantics of `hashlib.md5`) -/

/-- `2 ^ 32`, the word modulus of MD5. -/
def M32 : Nat := 4294967296

/-- 32-bit left rotation on `Nat` words. -/
def rotl32 (x n : Nat) : Nat := ((x <<< n) ||| (x >>> (32 - n))) % M32

/-- 32-bit bitwise complement. -/
def not32 (x : Nat) : Nat := 4294967295 ^^^ x

/-- The 64 MD5 sine-derived round constants `K[i]`. -/
def md5K : List Nat :=
  [0xd76aa478, 0xe8c7b756, 0x242070db, 0xc1bdceee,
   0xf57c0faf, 0x4787c62a, 0xa8304613, 0xfd469501,
   0x698098d8, 0x8b44f7af, 0xffff5bb1, 0x895cd7be,
   0x6b901122, 0xfd987193, 0xa679438e, 0x49b40821,
   0xf61e2562, 0xc040b340, 0x265e5a51, 0xe9b6c7aa,
   0xd62f105d, 0x02441453, 0xd8a1e681, 0xe7d3fbc8,
   0x21e1cde6, 0xc33707d6, 0xf4d50d87, 0x455a14ed,
   0xa9e3e905, 0xfcefa3f8, 0x676f02d9, 0x8d2a4c8a,
   0xfffa3942, 0x8771f681, 0x6d9d6122, 0xfde5380c,
   0xa4beea44, 0x4bdecfa9, 0xf6bb4b60, 0xbebfbc70,
   0x289b7ec6, 0xeaa127fa, 0xd4ef3085, 0x04881d05,
   0xd9d4d039, 0xe6db99e5, 0x1fa27cf8, 0xc4ac5665,
   0xf4292244, 0x432aff97, 0xab9423a7, 0xfc93a039,
   0x655b59c3, 0x8f0ccc92, 0xffeff47d, 0x85845dd1,
   0x6fa87e4f, 0xfe2ce6e0, 0xa3014314, 0x4e0811a1,
   0xf7537e82, 0xbd3af235, 0x2ad7d2bb, 0xeb86d391]

/-- The 64 MD5 per-round left-rotation amounts `s[i]`. -/
def md5S : List Nat :=
  [7, 12, 17, 22, 7, 12, 17, 22, 7, 12, 17, 22, 7, 12, 17, 22,
   5,  9, 14, 20, 5,  9, 14, 20, 5,  9, 14, 20, 5,  9, 14, 20,
   4, 11, 16, 23, 4, 11, 16, 23, 4, 11, 16, 23, 4, 11, 16, 23,
   6, 10, 15, 21, 6, 10, 15, 21, 6, 10, 15, 21, 6, 10, 15, 21]

/-- MD5 internal state: four 32-bit words. -/
structure MD5State where
  a : Nat
  b : Nat
  c : Nat
  d : Nat
deriving Repr, DecidableEq

/-- The fixed MD5 initialisation vector. -/
def md5Init : MD5State := ⟨0x67452301, 0xefcdab89, 0x98badcfe, 0x10325476⟩

/-- Little-endian 32-bit word number `g` of a 64-byte chunk. -/
def leWord (chunk : List Nat) (g : Nat) : Nat :=
  chunk.getD (4 * g) 0 + 256 * chunk.getD (4 * g + 1) 0 +
    65536 * chunk.getD (4 * g + 2) 0 + 16777216 * chunk.getD (4 * g + 3) 0

/-- One of the 64 MD5 rounds on one chunk. -/
def md5Round (chunk : List Nat) (st : MD5State) (i : Nat) : MD5State :=
  let fg : Nat × Nat :=
    if i < 16 then ((st.b &&& st.c) ||| (not32 st.b &&& st.d), i)
    else if i < 32 then ((st.d &&& st.b) ||| (not32 st.d &&& st.c), (5 * i + 1) % 16)
    else if i < 48 then (st.b ^^^ st.c ^^^ st.d, (3 * i + 5) % 16)
    else (st.c ^^^ (st.b ||| not32 st.d), (7 * i) % 16)
  let f : Nat := (fg.1 + st.a + md5K.getD i 0 + leWord chunk fg.2) % M32
  ⟨st.d, (st.b + rotl32 f (md5S.getD i 0)) % M32, st.b, st.c⟩

/-- Process one 64-byte chunk: run 64 rounds, then add into the running state. -/
def md5Chunk (st : MD5State) (chunk : List Nat) : MD5State :=
  let r := (List.range 64).foldl (md5Round chunk) st
  ⟨(st.a + r.a) % M32, (st.b + r.b) % M32, (st.c + r.c) % M32, (st.d + r.d) % M32⟩

/-- MD5 padding: append `0x80`, zero-pad to 56 mod 64, append the 64-bit
little-endian bit length. -/
def md5Pad (msg : List Nat) : List Nat :=
  let len := msg.length
  let zeros := (119 - len % 64) % 64
  let bitLen := (len * 8) % 18446744073709551616
  msg ++ [0x80] ++ List.replicate zeros 0 ++
    (List.range 8).map (fun i => (bitLen >>> (8 * i)) % 256)

/-- Split a byte list into 64-byte chunks; structural recursion on a fuel
argument (each step consumes at least one element, so `l.length` fuel is
always enough). -/
def chunksGo : Nat → List Nat → List (List Nat)
  | _, [] => []
  | 0, _ :: _ => []
  | Nat.succ fuel, b :: rest => (b :: rest).take 64 :: chunksGo fuel ((b :: rest).drop 64)

/-- Split a byte list into 64-byte chunks. -/
def chunks64 (l : List Nat) : List (List Nat) := chunksGo l.length l

/-- MD5 of a byte sequence. -/
def md5Bytes (msg : List Nat) : MD5State :=
  (chunks64 (md5Pad msg)).foldl md5Chunk md5Init

/-- UTF-8 encoding of one Unicode code point (the semantics of Python
`str.encode()` per character). -/
def utf8Bytes (c : Nat) : List Nat :=
  if c < 0x80 then [c]
  else if c < 0x800 then [0xC0 ||| (c >>> 6), 0x80 ||| (c &&& 0x3F)]
  else if c < 0x10000 then
    [0xE0 ||| (c >>> 12), 0x80 ||| ((c >>> 6) &&& 0x3F), 0x80 ||| (c &&& 0x3F)]
  else
    [0xF0 ||| (c >>> 18), 0x80 ||| ((c >>> 12) &&& 0x3F),
     0x80 ||| ((c >>> 6) &&& 0x3F), 0x80 ||| (c &&& 0x3F)]

/-- UTF-8 bytes of a string (`text.encode()` in Python). -/
def strBytes (s : String) : List Nat :=
  s.data.flatMap (fun c => utf8Bytes c.toNat)

/-- One lowercase hex digit. -/
def hexDigit (n : Nat) : Char :=
  if n < 10 then Char.ofNat (48 + n) else Char.ofNat (87 + n)

/-- Two hex digits of one byte. -/
def byteHex (b : Nat) : List Char := [hexDigit (b / 16), hexDigit (b % 16)]

/-- Little-endian byte serialisation of a 32-bit word. -/
def wordLEBytes (w : Nat) : List Nat :=
  [w % 256, (w >>> 8) % 256, (w >>> 16) % 256, (w >>> 24) % 256]

/-- `hashlib.md5(text.encode()).hexdigest()`: the 32-character lowercase hex
MD5 digest of a string. -/
def md5Hex (text : String) : String :=
  let st := md5Bytes (strBytes text)
  String.mk ((wordLEBytes st.a ++ wordLEBytes st.b ++
    wordLEBytes st.c ++ wordLEBytes st.d).flatMap byteHex)

/-! ## `RealTimeTranslator.get_audio_filename` (src/app.py lines 36-39) -/

/-- `get_audio_filename`: `self.cache_dir / f"audio_{self.target_lang}_{text_hash}.mp3"`
with `cache_dir = Path("translation_cache")` and
`text_hash = hashlib.md5(text.encode()).hexdigest()`. -/
def get_audio_filename (target_lang text : String) : String :=
  "translation_cache/audio_" ++ target_lang ++ "_" ++ md5Hex text ++ ".mp3"


/-! ## `RealTimeTranslator.text_to_speech` (src/app.py lines 90-109) -/

/-- Observable behaviour of the external gTTS synthesis engine and the
playsound sink during one `text_to_speech` call: whether the `tts.save`
write and the `playsound` playback succeed on attempt number `i` (0-based). -/
structure TTSBeh where
  saveOk : Nat → Bool
  playOk : Nat → Bool

/-- Result of one `text_to_speech` call. -/
structure TTSResult where
  fs : List String
  synthCalls : List String
  attempts : Nat
  sleepsDur : List Nat
  played : Bool
  reportedFailure : Bool
deriving Repr, DecidableEq

/-- The retry loop of `text_to_speech`: `for attempt in range(max_retries)`.
`remaining` counts the iterations left (`max_retries - attempt`).  Each
iteration recomputes the deterministic path, checks existence, synthesizes on
a miss (`tts.save` creates the file exactly when it succeeds), then plays; any
exception is caught, and either reported (on the final attempt,
`attempt == max_retries - 1`) or followed by a 1-second sleep before the next
attempt.  The accumulators carry the directory contents, the synthesis-engine
calls made so far, and the sleep durations so far. -/
def ttsLoop (target_lang text : String) (beh : TTSBeh) :
    Nat → Nat → List String → List String → List Nat → TTSResult
  | 0, attempt, fs, synth, sleeps =>
      ⟨fs, synth, attempt, sleeps, false, false⟩
  | Nat.succ rem, attempt, fs, synth, sleeps =>
      let path := get_audio_filename target_lang text
      let missing := !(fs.contains path)
      let synth2 := if missing then synth ++ [text] else synth
      let fs2 := if missing && beh.saveOk attempt then path :: fs else fs
      let raised := (missing && !(beh.saveOk attempt)) || !(beh.playOk attempt)
      if raised then
        if rem == 0 then
          ⟨fs2, synth2, attempt + 1, sleeps, false, true⟩
        else
          ttsLoop target_lang text beh rem (attempt + 1) fs2 synth2 (sleeps ++ [1])
      else
        ⟨fs2, synth2, attempt + 1, sleeps, true, false⟩

/-- `text_to_speech(text, max_retries=3)` for a session whose target language
is `target_lang`, run against cache-directory contents `fs`. -/
def text_to_speech (target_lang text : String) (beh : TTSBeh) (fs : List String)
    (max_retries : Nat := 3) : TTSResult :=
  ttsLoop target_lang text beh max_retries 0 fs [] []

/-! ## `RealTimeTranslator.cleanup` (src/app.py lines 111-120) -/

/-- Whether a file name matches the glob pattern `*.mp3`, i.e. ends in
`.mp3` (structural suffix check on the character list). -/
def matchesMp3Glob (name : String) : Bool := ".mp3".data.isSuffixOf name.data

/-- One file in the cache directory: its name, its last-modified time
(`st_mtime`, in seconds), and whether `unlink()` would succeed on it. -/
structure CacheFile where
  name : String
  mtime : Int
  unlinkOk : Bool
deriving Repr, DecidableEq

/-- `cleanup`: for every `*.mp3` file in the cache directory, delete it when
`current_time - st_mtime > 86400`; a failing `unlink` is swallowed by
`except Exception: pass`, leaving the file in place.  Returns the directory
contents after the sweep. -/
def cleanup (current_time : Int) (files : List CacheFile) : List CacheFile :=
  files.filter fun f =>
    !(matchesMp3Glob f.name && decide (current_time - f.mtime > 86400) && f.unlinkOk)

/-! ## `RealTimeTranslator.adjust_for_ambient_noise` (src/app.py lines 122-131) -/

/-- Calibration loop body: pass `i` calls
`recognizer.adjust_for_ambient_noise(source, duration=1)`; `fails i = true`
means that call raises.  Returns the durations of the calls that were made and
whether the warning line was printed (the `except` branch ran). -/
def calibGo (fails : Nat → Bool) : Nat → Nat → List Nat × Bool
  | 0, _ => ([], false)
  | Nat.succ rem, i =>
      if fails i then ([1], true)
      else
        let r := calibGo fails rem (i + 1)
        (1 :: r.1, r.2)

/-- `adjust_for_ambient_noise`: three 1-second calibration passes inside a
`try`; any exception from the audio source ends the loop, prints a warning,
and the method returns normally. -/
def adjust_for_ambient_noise (fails : Nat → Bool) : List Nat × Bool :=
  calibGo fails 3 0

/-! ## `RealTimeTranslator.manage_cache` (src/app.py lines 133-139) -/

/-- The eviction loop: `items_to_remove` times
`self.translation_cache.pop(next(iter(self.translation_cache)))`, popping the
first (oldest-inserted) entry each time. -/
def popOldest : Nat → List (String × String) → List (String × String)
  | 0, cache => cache
  | Nat.succ n, cache => popOldest n cache.tail

/-- `manage_cache(max_cache_size=1000)`.  `items_to_remove` embeds Python's
`int(max_cache_size * 0.2)`: for every `max_cache_size` below `2 ^ 52` the
IEEE-754 double computation `int(m * 0.2)` equals integer division `m / 5`
(the rounded product differs from the rational `m / 5` by a relative error
below `2 ^ -52`, which cannot carry the value across an integer boundary for
such `m`), so it is embedded as `max_cache_size / 5` on `Nat`. -/
def manage_cache (cache : List (String × String)) (max_cache_size : Nat := 1000) :
    List (String × String) :=
  if cache.length > max_cache_size then
    popOldest (max_cache_size / 5) cache
  else cache

/-! ## `RealTimeTranslator.__init__` and `main` (src/app.py lines 11-34, 173-178) -/

/-- Observable behaviour of the `GoogleTranslator` collaborator for one
language pair: whether constructing it raises, and whether `translate(t)`
raises for each text `t`. -/
structure TranslatorEnv where
  constructOk : Bool
  translateOk : String → Bool

/-- The construction-time validation in `__init__`: build the engine and
translate the probe string `"test"`; any exception becomes
`raise ValueError("Failed to initialize translator: ...")`. -/
def initTranslator (env : TranslatorEnv) : Except String Unit :=
  if env.constructOk then
    if env.translateOk "test" then Except.ok ()
    else Except.error "Failed to initialize translator"
  else Except.error "Failed to initialize translator"

/-- `main` (after the language prompts): construct the `RealTimeTranslator`
and, only when construction succeeded, start `listen_and_translate`; a
construction error is printed and nothing else runs.  Returns whether the
session loop started. -/
def sessionStarts (env : TranslatorEnv) : Bool :=
  match initTranslator env with
  | Except.ok _ => true
  | Except.error _ => false

/-! ## `RealTimeTranslator.listen_and_translate` (src/app.py lines 41-88) -/

/-- One loop iteration's outcome, as produced by the external microphone,
recognizer and user: the listen timeout (`sr.WaitTimeoutError`),
unintelligible audio (`sr.UnknownValueError`), a recognizer service error
(`sr.RequestError`), a successful recognition of `text` (with the
synthesis/playback behaviour for the resulting `text_to_speech` call), an
unclassified exception, or the user's `KeyboardInterrupt`. -/
inductive IterEvent where
  | timeout
  | unintelligible
  | recogError
  | speech (text : String) (beh : TTSBeh)
  | otherError
  | cancel

/-- The mutable session state threaded through the loop: the in-memory
`translation_cache` as an insertion-ordered association list, and the files
present in the cache directory. -/
structure SessionState where
  translation_cache : List (String × String)
  fs : List String

/-- Observable result of running the loop on a trace of iteration outcomes:
final state, the arguments of the `translator.translate` calls in order, the
texts sent to the synthesis engine in order, the handled-error status lines,
the `time.sleep(1)` cooldowns after unclassified errors, the number of
`manage_cache` and `cleanup` invocations, and whether the loop exited. -/
structure RunResult where
  state : SessionState
  translateCalls : List String
  synthCalls : List String
  errorsReported : Nat
  cooldowns : Nat
  manageCalls : Nat
  cleanupCalls : Nat
  stopped : Bool

/-- The `Translating` / `Synthesizing` / `Playing` part of one successful
iteration (src/app.py lines 62-72): exact-string lookup of the recognized
text in `translation_cache`; on a miss one `translate` call and an
insertion-ordered store under the exact recognized text; then
`text_to_speech` on the translation.  Returns the new state, this iteration's
translate calls, and this iteration's synthesis calls. -/
def processSpeech (translate : String → String) (target_lang : String)
    (st : SessionState) (text : String) (beh : TTSBeh) :
    SessionState × List String × List String :=
  match st.translation_cache.lookup text with
  | some translation =>
      let r := text_to_speech target_lang translation beh st.fs
      (⟨st.translation_cache, r.fs⟩, [], r.synthCalls)
  | none =>
      let translation := translate text
      let r := text_to_speech target_lang translation beh st.fs
      (⟨st.translation_cache ++ [(text, translation)], r.fs⟩, [text], r.synthCalls)

/-- `listen_and_translate` as a fold over the trace of iteration outcomes.
Every outcome except `cancel` is handled inside the `while True:` body and
the loop continues; `cancel` (`KeyboardInterrupt`) escapes to the outer
handler, prints the stop message, and the `finally:` block runs `cleanup`
once.  A trace that ends without `cancel` leaves the session still running
(the real loop is infinite), so no cleanup has happened yet. -/
def listen_and_translate (translate : String → String) (target_lang : String) :
    List IterEvent → SessionState → RunResult
  | [], st => ⟨st, [], [], 0, 0, 0, 0, false⟩
  | ev :: evs, st =>
      match ev with
      | IterEvent.timeout => listen_and_translate translate target_lang evs st
      | IterEvent.unintelligible =>
          let r := listen_and_translate translate target_lang evs st
          ⟨r.state, r.translateCalls, r.synthCalls, r.errorsReported + 1,
            r.cooldowns, r.manageCalls, r.cleanupCalls, r.stopped⟩
      | IterEvent.recogError =>
          let r := listen_and_translate translate target_lang evs st
          ⟨r.state, r.translateCalls, r.synthCalls, r.errorsReported + 1,
            r.cooldowns, r.manageCalls, r.cleanupCalls, r.stopped⟩
      | IterEvent.otherError =>
          let r := listen_and_translate translate target_lang evs st
          ⟨r.state, r.translateCalls, r.synthCalls, r.errorsReported + 1,
            r.cooldowns + 1, r.manageCalls, r.cleanupCalls, r.stopped⟩
      | IterEvent.speech text beh =>
          let p := processSpeech translate target_lang st text beh
          let r := listen_and_translate translate target_lang evs p.1
          ⟨r.state, p.2.1 ++ r.translateCalls, p.2.2 ++ r.synthCalls,
            r.errorsReported, r.cooldowns, r.manageCalls, r.cleanupCalls, r.stopped⟩
      | IterEvent.cancel => ⟨st, [], [], 0, 0, 0, 1, true⟩

/-! ## Auxiliary notions used by the statements -/

/-- The keys of the translation cache, oldest first. -/
def cacheKeys (st : SessionState) : List String := st.translation_cache.map Prod.fst

/-- A synthesis/playback behaviour that always succeeds. -/
def okBeh : TTSBeh := ⟨fun _ => true, fun _ => true⟩

/-- The string of `n` copies of the letter a, used to build arbitrarily many
pairwise distinct utterances. -/
def aText (n : Nat) : String := String.mk (List.replicate n 'a')

/-- A trace of `n` successfully recognized, pairwise distinct utterances. -/
def distinctSpeechTrace (n : Nat) : List IterEvent :=
  (List.range n).map fun i => IterEvent.speech (aText i) okBeh

/-- Whether an iteration outcome is the user's `KeyboardInterrupt`. -/
def isCancel : IterEvent → Bool
  | IterEvent.cancel => true
  | _ => false

/-- Every `tts.save` of this iteration outcome succeeds (trivially true for
outcomes that do not synthesize). -/
def eventSavesOk : IterEvent → Prop
  | IterEvent.speech _ b => ∀ i, b.saveOk i = true
  | _ => True
/-! ## Helper lemmas -/

theorem popOldest_eq_drop : ∀ (n : Nat) (l : List (String × String)), popOldest n l = l.drop n := by
  intro n
  induction n with
  | zero => intro l; rfl
  | succ k ih =>
      intro l
      cases l with
      | nil => simp [popOldest, ih]
      | cons x xs => simp [popOldest, ih, List.tail]

theorem lookup_eq_none_keys (l : List (String × String)) (s : String) :
    l.lookup s = none ↔ s ∉ l.map Prod.fst := by
  induction l with
  | nil => simp [List.lookup]
  | cons p rest ih =>
      obtain ⟨k, v⟩ := p
      by_cases h : s = k
      · subst h; simp [List.lookup]
      · have hb : (s == k) = false := by simp [h]
        simp [List.lookup, hb, ih, h]
/-! ## Claims C3 and C10: translation-cache eviction -/

/-- Claim C3: when the translation cache's entry count exceeds
`max_cache_size` (default 1000), one `manage_cache` call removes the oldest
20% of `max_cache_size` entries in insertion order (least-recently-inserted
first), and when the count does not exceed `max_cache_size` it removes
nothing; in particular with `max_cache_size = 10` and 11 inserted entries,
exactly the 2 oldest entries are removed and the 9 most recent remain. -/
theorem manage_cache_eviction_policy (cache : List (String × String)) (max_cache_size : Nat) :
    (cache.length > max_cache_size →
        manage_cache cache max_cache_size = cache.drop (max_cache_size / 5)) ∧
    (cache.length ≤ max_cache_size → manage_cache cache max_cache_size = cache) ∧
    (cache.length = 11 →
        manage_cache cache 10 = cache.drop 2 ∧ (manage_cache cache 10).length = 9) := by
  refine ⟨fun h => ?_, fun h => ?_, fun h => ?_⟩
  · simp [manage_cache, h, popOldest_eq_drop]
  · simp [manage_cache, Nat.not_lt.mpr h]
  · have h10 : cache.length > 10 := by omega
    constructor
    · simp [manage_cache, h10, popOldest_eq_drop]
    · simp [manage_cache, h10, popOldest_eq_drop, List.length_drop, h]

/-- Witness for `manage_cache_eviction_policy`: a concrete 11-entry cache with
`max_cache_size = 10` loses exactly its 2 oldest entries, and a 1-entry cache
is left unchanged. -/
theorem manage_cache_eviction_policy_witness :
    manage_cache ((List.range 11).map fun i => (aText i, "x")) 10 =
      ((List.range 11).map fun i => (aText i, "x")).drop 2 ∧
    (manage_cache ((List.range 11).map fun i => (aText i, "x")) 10).length = 9 ∧
    manage_cache [(aText 0, "x")] 10 = [(aText 0, "x")] :=
  ⟨((manage_cache_eviction_policy ((List.range 11).map fun i => (aText i, "x")) 10).2.2
      (by decide)).1,
   ((manage_cache_eviction_policy ((List.range 11).map fun i => (aText i, "x")) 10).2.2
      (by decide)).2,
   (manage_cache_eviction_policy [(aText 0, "x")] 10).2.1 (by decide)⟩

/-- Claim C10 (implicit): one `manage_cache` call on a cache whose entry count
strictly exceeds `max_cache_size` removes exactly `⌊0.2 * max_cache_size⌋`
entries — a count computed from `max_cache_size`, not from the entry count —
so a cache exceeding the threshold by more than that amount stays above the
threshold after one call, and for every `max_cache_size < 5` the call removes
zero entries and leaves the cache unchanged. -/
theorem manage_cache_count_from_max (cache : List (String × String)) (max_cache_size : Nat) :
    (cache.length > max_cache_size →
        (manage_cache cache max_cache_size).length = cache.length - max_cache_size / 5) ∧
    (cache.length > max_cache_size + max_cache_size / 5 →
        (manage_cache cache max_cache_size).length > max_cache_size) ∧
    (max_cache_size < 5 → manage_cache cache max_cache_size = cache) := by
  have hdrop : cache.length > max_cache_size →
      (manage_cache cache max_cache_size).length = cache.length - max_cache_size / 5 := by
    intro h
    simp [manage_cache, h, popOldest_eq_drop, List.length_drop]
  refine ⟨hdrop, fun h => ?_, fun h => ?_⟩
  · have h5 : max_cache_size / 5 ≤ max_cache_size := Nat.div_le_self _ _
    have h1 : cache.length > max_cache_size := by omega
    rw [hdrop h1]
    omega
  · have h0 : max_cache_size / 5 = 0 := Nat.div_eq_of_lt h
    by_cases hl : cache.length > max_cache_size
    · simp [manage_cache, hl, h0, popOldest]
    · simp [manage_cache, hl]

/-- Witness for `manage_cache_count_from_max`: with `max_cache_size = 10` and
a 20-entry cache one call removes exactly 2 entries, leaving 18 > 10; with
`max_cache_size = 4` an oversized cache is untouched. -/
theorem manage_cache_count_from_max_witness :
    (manage_cache ((List.range 20).map fun i => (aText i, "x")) 10).length = 18 ∧
    (manage_cache ((List.range 20).map fun i => (aText i, "x")) 10).length > 10 ∧
    manage_cache ((List.range 6).map fun i => (aText i, "x")) 4 =
      (List.range 6).map fun i => (aText i, "x") :=
  ⟨(manage_cache_count_from_max ((List.range 20).map fun i => (aText i, "x")) 10).1
      (by decide),
   (manage_cache_count_from_max ((List.range 20).map fun i => (aText i, "x")) 10).2.1
      (by decide),
   (manage_cache_count_from_max ((List.range 6).map fun i => (aText i, "x")) 4).2.2
      (by decide)⟩

/-! ## Claim C6: the TTL cleanup sweep -/

/-- Claim C6: the cleanup sweep deletes an mp3 artifact of the cache directory
exactly when its last-modified time is more than 24 hours (86400 s) before
`current_time`, and a failure while deleting an individual file is swallowed
silently: the sweep returns normally with the file left in place. -/
theorem cleanup_ttl_sweep (current_time : Int) (files : List CacheFile) (f : CacheFile)
    (hmem : f ∈ files) :
    (matchesMp3Glob f.name = true → f.unlinkOk = true →
        (f ∉ cleanup current_time files ↔ current_time - f.mtime > 86400)) ∧
    (f.unlinkOk = false → f ∈ cleanup current_time files) := by
  constructor
  · intro hext hok
    constructor
    · intro hnot
      by_contra hle
      refine hnot ?_
      simp only [cleanup]
      exact List.mem_filter.mpr ⟨hmem, by simp [hext, hok, hle]⟩
    · intro hold hmem2
      simp only [cleanup] at hmem2
      have hp := (List.mem_filter.mp hmem2).2
      simp [hext, hok, hold] at hp
  · intro hbad
    simp only [cleanup]
    exact List.mem_filter.mpr ⟨hmem, by simp [hbad]⟩

/-- Witness for `cleanup_ttl_sweep` at `current_time = 1000000`: a 25-hour-old
artifact (mtime 910000) is deleted, a 1-hour-old one (mtime 996400) is
retained, and an old artifact whose deletion fails stays, silently. -/
theorem cleanup_ttl_sweep_witness :
    (⟨"a.mp3", 910000, true⟩ : CacheFile) ∉
      cleanup 1000000
        [⟨"a.mp3", 910000, true⟩, ⟨"b.mp3", 996400, true⟩, ⟨"c.mp3", 0, false⟩] ∧
    (⟨"b.mp3", 996400, true⟩ : CacheFile) ∈
      cleanup 1000000
        [⟨"a.mp3", 910000, true⟩, ⟨"b.mp3", 996400, true⟩, ⟨"c.mp3", 0, false⟩] ∧
    (⟨"c.mp3", 0, false⟩ : CacheFile) ∈
      cleanup 1000000
        [⟨"a.mp3", 910000, true⟩, ⟨"b.mp3", 996400, true⟩, ⟨"c.mp3", 0, false⟩] := by
  refine ⟨?_, ?_, ?_⟩
  · exact ((cleanup_ttl_sweep 1000000
        [⟨"a.mp3", 910000, true⟩, ⟨"b.mp3", 996400, true⟩, ⟨"c.mp3", 0, false⟩]
        ⟨"a.mp3", 910000, true⟩ (by decide)).1 (by decide) (by decide)).mpr (by decide)
  · by_contra hn
    exact absurd (((cleanup_ttl_sweep 1000000
        [⟨"a.mp3", 910000, true⟩, ⟨"b.mp3", 996400, true⟩, ⟨"c.mp3", 0, false⟩]
        ⟨"b.mp3", 996400, true⟩ (by decide)).1 (by decide) (by decide)).mp hn) (by decide)
  · exact (cleanup_ttl_sweep 1000000
        [⟨"a.mp3", 910000, true⟩, ⟨"b.mp3", 996400, true⟩, ⟨"c.mp3", 0, false⟩]
        ⟨"c.mp3", 0, false⟩ (by decide)).2 (by decide)

/-! ## Claim C8: construction-time probe validation -/

/-- Claim C8: session construction probes the translation of the fixed string
`"test"`; the session loop starts iff constructing the engine and translating
the probe both succeed; otherwise `__init__` raises and the loop never runs.
The outcome depends only on the construction flag and the probe string. -/
theorem init_probe_validation (env : TranslatorEnv) :
    (sessionStarts env = true ↔ env.constructOk = true ∧ env.translateOk "test" = true) ∧
    ((env.constructOk = false ∨ env.translateOk "test" = false) →
        ∃ msg, initTranslator env = Except.error msg) ∧
    (∀ env2 : TranslatorEnv, env.constructOk = env2.constructOk →
        env.translateOk "test" = env2.translateOk "test" →
        sessionStarts env = sessionStarts env2) := by
  refine ⟨?_, ?_, ?_⟩
  · cases hc : env.constructOk <;> cases ht : env.translateOk "test" <;>
      simp [sessionStarts, initTranslator, hc, ht]
  · intro h
    cases hc : env.constructOk <;> cases ht : env.translateOk "test" <;>
      simp [hc, ht] at h ⊢ <;> simp [initTranslator, hc, ht]
  · intro env2 h1 h2
    simp [sessionStarts, initTranslator, h1, h2]

/-- Witness for `init_probe_validation`: a succeeding environment starts the
session; an environment whose probe translation fails yields a construction
error. -/
theorem init_probe_validation_witness :
    sessionStarts ⟨true, fun _ => true⟩ = true ∧
    (∃ msg, initTranslator ⟨true, fun _ => false⟩ = Except.error msg) := by
  constructor
  · exact (init_probe_validation ⟨true, fun _ => true⟩).1.mpr ⟨rfl, rfl⟩
  · exact (init_probe_validation ⟨true, fun _ => false⟩).2.1 (Or.inr rfl)

/-! ## Claim C9: the calibration step -/

/-- Claim C9: when the audio source never raises, calibration performs exactly
3 ambient-noise passes of 1 second each and prints no warning; an error from
the source during any pass is caught and logged as a warning and the method
returns normally; every pass that is made lasts 1 second and at most 3 passes
are made. -/
theorem calibration_contract (fails : Nat → Bool) :
    ((∀ i, fails i = false) → adjust_for_ambient_noise fails = ([1, 1, 1], false)) ∧
    ((adjust_for_ambient_noise fails).2 = true ↔
        fails 0 = true ∨ fails 1 = true ∨ fails 2 = true) ∧
    (∀ d ∈ (adjust_for_ambient_noise fails).1, d = 1) ∧
    (adjust_for_ambient_noise fails).1.length ≤ 3 := by
  refine ⟨fun h => ?_, ?_, ?_, ?_⟩
  · simp [adjust_for_ambient_noise, calibGo, h 0, h 1, h 2]
  · cases h0 : fails 0 <;> cases h1 : fails 1 <;> cases h2 : fails 2 <;>
      simp [adjust_for_ambient_noise, calibGo, h0, h1, h2]
  · cases h0 : fails 0 <;> cases h1 : fails 1 <;> cases h2 : fails 2 <;>
      simp [adjust_for_ambient_noise, calibGo, h0, h1, h2]
  · cases h0 : fails 0 <;> cases h1 : fails 1 <;> cases h2 : fails 2 <;>
      simp [adjust_for_ambient_noise, calibGo, h0, h1, h2]

/-- Witness for `calibration_contract`: a never-failing source gives exactly
three 1-second passes and no warning; a source failing on the second pass
still returns, with the warning flag set. -/
theorem calibration_contract_witness :
    adjust_for_ambient_noise (fun _ => false) = ([1, 1, 1], false) ∧
    (adjust_for_ambient_noise (fun i => i == 1)).2 = true := by
  constructor
  · exact (calibration_contract (fun _ => false)).1 (fun _ => rfl)
  · exact (calibration_contract (fun i => i == 1)).2.1.mpr (Or.inr (Or.inl (by decide)))
/-! ## Lemmas about the `text_to_speech` retry loop -/

theorem ttsLoop_zero (tl t : String) (beh : TTSBeh) (attempt : Nat)
    (fs synth : List String) (sleeps : List Nat) :
    ttsLoop tl t beh 0 attempt fs synth sleeps = ⟨fs, synth, attempt, sleeps, false, false⟩ :=
  rfl

theorem ttsLoop_hit (tl t : String) (beh : TTSBeh) :
    ∀ (rem attempt : Nat) (fs synth : List String) (sleeps : List Nat),
      get_audio_filename tl t ∈ fs →
      (ttsLoop tl t beh rem attempt fs synth sleeps).synthCalls = synth ∧
      (ttsLoop tl t beh rem attempt fs synth sleeps).fs = fs := by
  intro rem
  induction rem with
  | zero => intro attempt fs synth sleeps _; exact ⟨rfl, rfl⟩
  | succ k ih =>
      intro attempt fs synth sleeps h
      cases hp : beh.playOk attempt with
      | true => simp [ttsLoop, h, hp]
      | false =>
          cases k with
          | zero => simp [ttsLoop, h, hp]
          | succ k2 =>
              have hstep : ttsLoop tl t beh (k2 + 1 + 1) attempt fs synth sleeps =
                  ttsLoop tl t beh (k2 + 1) (attempt + 1) fs synth (sleeps ++ [1]) := by
                simp [ttsLoop, h, hp]
              rw [hstep]
              exact ih (attempt + 1) fs synth (sleeps ++ [1]) h

theorem ttsLoop_fs_monotone (tl t : String) (beh : TTSBeh) :
    ∀ (rem attempt : Nat) (fs synth : List String) (sleeps : List Nat) (x : String),
      x ∈ fs → x ∈ (ttsLoop tl t beh rem attempt fs synth sleeps).fs := by
  intro rem
  induction rem with
  | zero => intro _ fs _ _ x hx; exact hx
  | succ k ih =>
      intro attempt fs synth sleeps x hx
      have hx2 : x ∈ (get_audio_filename tl t) :: fs := List.mem_cons_of_mem _ hx
      by_cases hc : get_audio_filename tl t ∈ fs
      · cases hp : beh.playOk attempt with
        | true => simpa [ttsLoop, hc, hp] using hx
        | false =>
            cases k with
            | zero => simpa [ttsLoop, hc, hp] using hx
            | succ k2 =>
                have hstep : ttsLoop tl t beh (k2 + 1 + 1) attempt fs synth sleeps =
                    ttsLoop tl t beh (k2 + 1) (attempt + 1) fs synth (sleeps ++ [1]) := by
                  simp [ttsLoop, hc, hp]
                rw [hstep]
                exact ih (attempt + 1) fs synth (sleeps ++ [1]) x hx
      · cases hs : beh.saveOk attempt with
        | false =>
            cases k with
            | zero => simpa [ttsLoop, hc, hs] using hx
            | succ k2 =>
                have hstep : ttsLoop tl t beh (k2 + 1 + 1) attempt fs synth sleeps =
                    ttsLoop tl t beh (k2 + 1) (attempt + 1) fs (synth ++ [t]) (sleeps ++ [1]) := by
                  simp [ttsLoop, hc, hs]
                rw [hstep]
                exact ih (attempt + 1) fs (synth ++ [t]) (sleeps ++ [1]) x hx
        | true =>
            cases hp : beh.playOk attempt with
            | true => simpa [ttsLoop, hc, hs, hp] using hx2
            | false =>
                cases k with
                | zero => simpa [ttsLoop, hc, hs, hp] using hx2
                | succ k2 =>
                    have hstep : ttsLoop tl t beh (k2 + 1 + 1) attempt fs synth sleeps =
                        ttsLoop tl t beh (k2 + 1) (attempt + 1)
                          ((get_audio_filename tl t) :: fs) (synth ++ [t]) (sleeps ++ [1]) := by
                      simp [ttsLoop, hc, hs, hp]
                    rw [hstep]
                    exact ih (attempt + 1) ((get_audio_filename tl t) :: fs) (synth ++ [t])
                      (sleeps ++ [1]) x hx2

theorem ttsLoop_miss_savesOk (tl t : String) (beh : TTSBeh)
    (hsave : ∀ i, beh.saveOk i = true) (rem attempt : Nat)
    (fs synth : List String) (sleeps : List Nat)
    (h : get_audio_filename tl t ∉ fs) :
    (ttsLoop tl t beh (rem + 1) attempt fs synth sleeps).synthCalls = synth ++ [t] ∧
    get_audio_filename tl t ∈ (ttsLoop tl t beh (rem + 1) attempt fs synth sleeps).fs := by
  have hself : get_audio_filename tl t ∈ (get_audio_filename tl t) :: fs :=
    List.mem_cons_self _ _
  cases hp : beh.playOk attempt with
  | true => simp [ttsLoop, h, hsave attempt, hp, hself]
  | false =>
      cases rem with
      | zero => simp [ttsLoop, h, hsave attempt, hp, hself]
      | succ k2 =>
          have hstep : ttsLoop tl t beh (k2 + 1 + 1) attempt fs synth sleeps =
              ttsLoop tl t beh (k2 + 1) (attempt + 1) ((get_audio_filename tl t) :: fs)
                (synth ++ [t]) (sleeps ++ [1]) := by
            simp [ttsLoop, h, hsave attempt, hp]
          have hrec := ttsLoop_hit tl t beh (k2 + 1) (attempt + 1)
            ((get_audio_filename tl t) :: fs) (synth ++ [t]) (sleeps ++ [1]) hself
          rw [hstep, hrec.1, hrec.2]
          exact ⟨rfl, hself⟩

theorem text_to_speech_hit (tl t : String) (beh : TTSBeh) (fs : List String)
    (h : get_audio_filename tl t ∈ fs) :
    (text_to_speech tl t beh fs).synthCalls = [] ∧ (text_to_speech tl t beh fs).fs = fs :=
  ttsLoop_hit tl t beh 3 0 fs [] [] h

theorem text_to_speech_miss (tl t : String) (beh : TTSBeh) (fs : List String)
    (hsave : ∀ i, beh.saveOk i = true)
    (h : get_audio_filename tl t ∉ fs) :
    (text_to_speech tl t beh fs).synthCalls = [t] ∧
    get_audio_filename tl t ∈ (text_to_speech tl t beh fs).fs := by
  simpa using ttsLoop_miss_savesOk tl t beh hsave 2 0 fs [] [] h

theorem text_to_speech_fs_monotone (tl t : String) (beh : TTSBeh) (fs : List String)
    (x : String) (hx : x ∈ fs) : x ∈ (text_to_speech tl t beh fs).fs :=
  ttsLoop_fs_monotone tl t beh 3 0 fs [] [] x hx
/-! ## Claim C5: the retry executor around synthesis and playback -/

/-- Claim C5: `text_to_speech` attempts the synthesize-and-play action up to
`max_retries = 3` times with a fixed 1-second sleep between non-final
attempts (no exponential growth, no jitter): an action that fails twice and
then succeeds makes exactly 3 attempts and two 1-second sleeps and returns
the success; an action that always fails makes exactly 3 attempts, two
1-second sleeps, reports the terminal failure for this utterance, and
returns normally instead of raising; a first-attempt success returns
immediately after 1 attempt and no sleep. -/
theorem text_to_speech_retry_contract (tl t : String) (beh : TTSBeh) (fs : List String) :
    ((∀ i, beh.saveOk i = true) → beh.playOk 0 = false → beh.playOk 1 = false →
      beh.playOk 2 = true →
        (text_to_speech tl t beh fs).attempts = 3 ∧
        (text_to_speech tl t beh fs).sleepsDur = [1, 1] ∧
        (text_to_speech tl t beh fs).played = true ∧
        (text_to_speech tl t beh fs).reportedFailure = false) ∧
    ((∀ i, beh.playOk i = false) →
        (text_to_speech tl t beh fs).attempts = 3 ∧
        (text_to_speech tl t beh fs).sleepsDur = [1, 1] ∧
        (text_to_speech tl t beh fs).played = false ∧
        (text_to_speech tl t beh fs).reportedFailure = true) ∧
    (beh.playOk 0 = true → (get_audio_filename tl t ∈ fs ∨ beh.saveOk 0 = true) →
        (text_to_speech tl t beh fs).attempts = 1 ∧
        (text_to_speech tl t beh fs).sleepsDur = [] ∧
        (text_to_speech tl t beh fs).played = true) := by
  refine ⟨fun hsave h0 h1 h2 => ?_, fun hfail => ?_, fun h0 hdis => ?_⟩
  · by_cases hc : get_audio_filename tl t ∈ fs
    · simp [text_to_speech, ttsLoop, hc, h0, h1, h2]
    · simp [text_to_speech, ttsLoop, hc, hsave 0, hsave 1, hsave 2, h0, h1, h2]
  · by_cases hc : get_audio_filename tl t ∈ fs
    · simp [text_to_speech, ttsLoop, hc, hfail 0, hfail 1, hfail 2]
    · cases hs0 : beh.saveOk 0 with
      | true =>
          simp [text_to_speech, ttsLoop, hc, hs0, hfail 0, hfail 1, hfail 2]
      | false =>
          cases hs1 : beh.saveOk 1 with
          | true =>
              simp [text_to_speech, ttsLoop, hc, hs0, hs1, hfail 0, hfail 1, hfail 2]
          | false =>
              cases hs2 : beh.saveOk 2 with
              | true =>
                  simp [text_to_speech, ttsLoop, hc, hs0, hs1, hs2, hfail 0, hfail 1, hfail 2]
              | false =>
                  simp [text_to_speech, ttsLoop, hc, hs0, hs1, hs2, hfail 0, hfail 1, hfail 2]
  · rcases hdis with hc | hs0
    · simp [text_to_speech, ttsLoop, hc, h0]
    · by_cases hc : get_audio_filename tl t ∈ fs
      · simp [text_to_speech, ttsLoop, hc, h0]
      · simp [text_to_speech, ttsLoop, hc, hs0, h0]

/-- Witness for `text_to_speech_retry_contract`: a playback that fails twice
then succeeds gives 3 attempts, sleeps `[1, 1]` and success; a playback that
always fails gives 3 attempts and a reported terminal failure with no raise;
an immediately successful action makes 1 attempt. -/
theorem text_to_speech_retry_contract_witness :
    (text_to_speech "fr" "bonjour" ⟨fun _ => true, fun i => decide (2 ≤ i)⟩ []).attempts = 3 ∧
    (text_to_speech "fr" "bonjour" ⟨fun _ => true, fun i => decide (2 ≤ i)⟩ []).sleepsDur = [1, 1] ∧
    (text_to_speech "fr" "bonjour" ⟨fun _ => true, fun i => decide (2 ≤ i)⟩ []).played = true ∧
    (text_to_speech "fr" "bonjour" ⟨fun _ => true, fun _ => false⟩ []).attempts = 3 ∧
    (text_to_speech "fr" "bonjour" ⟨fun _ => true, fun _ => false⟩ []).reportedFailure = true ∧
    (text_to_speech "fr" "hello" ⟨fun _ => true, fun _ => true⟩ []).attempts = 1 := by
  have h1 := (text_to_speech_retry_contract "fr" "bonjour"
      ⟨fun _ => true, fun i => decide (2 ≤ i)⟩ []).1 (fun _ => rfl) rfl rfl rfl
  have h2 := (text_to_speech_retry_contract "fr" "bonjour"
      ⟨fun _ => true, fun _ => false⟩ []).2.1 (fun _ => rfl)
  have h3 := (text_to_speech_retry_contract "fr" "hello"
      ⟨fun _ => true, fun _ => true⟩ []).2.2 rfl (Or.inr rfl)
  exact ⟨h1.1, h1.2.1, h1.2.2.1, h2.1, h2.2.2.2, h3.1⟩
/-! ## Lemmas about the session loop -/

theorem run_manageCalls_zero (translate : String → String) (tl : String) :
    ∀ (evs : List IterEvent) (st : SessionState),
      (listen_and_translate translate tl evs st).manageCalls = 0 := by
  intro evs
  induction evs with
  | nil => intro st; rfl
  | cons ev rest ih =>
      intro st
      cases ev <;> simp [listen_and_translate, ih]

theorem run_translate_count (translate : String → String) (tl : String) (s : String) :
    ∀ (evs : List IterEvent) (st : SessionState),
      (listen_and_translate translate tl evs st).translateCalls.count s ≤
        if s ∈ cacheKeys st then 0 else 1 := by
  intro evs
  induction evs with
  | nil => intro st; simp [listen_and_translate]
  | cons ev rest ih =>
      intro st
      cases ev with
      | timeout => simpa [listen_and_translate] using ih st
      | unintelligible => simpa [listen_and_translate] using ih st
      | recogError => simpa [listen_and_translate] using ih st
      | otherError => simpa [listen_and_translate] using ih st
      | cancel => simp [listen_and_translate]
      | speech t beh =>
          cases hl : st.translation_cache.lookup t with
          | some tr =>
              have hcalls : (listen_and_translate translate tl
                  (IterEvent.speech t beh :: rest) st).translateCalls =
                  (listen_and_translate translate tl rest
                    ⟨st.translation_cache, (text_to_speech tl tr beh st.fs).fs⟩).translateCalls := by
                simp [listen_and_translate, processSpeech, hl]
              rw [hcalls]
              have hrec := ih ⟨st.translation_cache, (text_to_speech tl tr beh st.fs).fs⟩
              simpa [cacheKeys] using hrec
          | none =>
              have hcalls : (listen_and_translate translate tl
                  (IterEvent.speech t beh :: rest) st).translateCalls =
                  t :: (listen_and_translate translate tl rest
                    ⟨st.translation_cache ++ [(t, translate t)],
                      (text_to_speech tl (translate t) beh st.fs).fs⟩).translateCalls := by
                simp [listen_and_translate, processSpeech, hl]
              rw [hcalls]
              by_cases hs : s = t
              · subst hs
                have hnot : s ∉ cacheKeys st := by
                  have := (lookup_eq_none_keys st.translation_cache s).mp hl
                  simpa [cacheKeys] using this
                have hmem : s ∈ cacheKeys ⟨st.translation_cache ++ [(s, translate s)],
                    (text_to_speech tl (translate s) beh st.fs).fs⟩ := by
                  simp [cacheKeys]
                have hrec := ih ⟨st.translation_cache ++ [(s, translate s)],
                    (text_to_speech tl (translate s) beh st.fs).fs⟩
                rw [if_pos hmem] at hrec
                have hzero := Nat.le_zero.mp hrec
                simp [List.count_cons, hzero, hnot]
              · have hrec := ih ⟨st.translation_cache ++ [(t, translate t)],
                    (text_to_speech tl (translate t) beh st.fs).fs⟩
                have hiff : (s ∈ cacheKeys ⟨st.translation_cache ++ [(t, translate t)],
                    (text_to_speech tl (translate t) beh st.fs).fs⟩) ↔ s ∈ cacheKeys st := by
                  simp [cacheKeys, hs]
                by_cases hin : s ∈ cacheKeys st
                · rw [if_pos (hiff.mpr hin)] at hrec
                  rw [if_pos hin]
                  have hzero := Nat.le_zero.mp hrec
                  simp [List.count_cons, hzero, hs]
                · rw [if_neg (fun hh => hin (hiff.mp hh))] at hrec
                  rw [if_neg hin]
                  simpa [List.count_cons, hs] using hrec
/-! ## Claim C1: the in-memory translation cache -/

/-- Claim C1: within one session the translation engine is invoked at most
once per exact recognized string — over any trace from an empty cache, the
engine sees a given string at most once; a cache hit uses the cached value
and performs no engine call; a miss calls the engine once and stores the
result keyed by the exact recognized text before proceeding.  Lookup is
exact-string equality on the recognized text, with no normalization. -/
theorem translation_cache_at_most_once (translate : String → String) (tl : String)
    (fs0 : List String) (evs : List IterEvent) (s : String) :
    (listen_and_translate translate tl evs ⟨[], fs0⟩).translateCalls.count s ≤ 1 ∧
    (∀ (st : SessionState) (t : String) (beh : TTSBeh) (tr : String),
        st.translation_cache.lookup t = some tr →
        processSpeech translate tl st t beh =
          (⟨st.translation_cache, (text_to_speech tl tr beh st.fs).fs⟩, [],
            (text_to_speech tl tr beh st.fs).synthCalls)) ∧
    (∀ (st : SessionState) (t : String) (beh : TTSBeh),
        st.translation_cache.lookup t = none →
        processSpeech translate tl st t beh =
          (⟨st.translation_cache ++ [(t, translate t)],
              (text_to_speech tl (translate t) beh st.fs).fs⟩, [t],
            (text_to_speech tl (translate t) beh st.fs).synthCalls)) := by
  refine ⟨?_, ?_, ?_⟩
  · have h := run_translate_count translate tl s evs ⟨[], fs0⟩
    have hempty : s ∉ cacheKeys (⟨[], fs0⟩ : SessionState) := by simp [cacheKeys]
    rw [if_neg hempty] at h
    exact h
  · intro st t beh tr hl
    simp [processSpeech, hl]
  · intro st t beh hl
    simp [processSpeech, hl]

/-- Witness for `translation_cache_at_most_once`: the trace that recognizes
`"hello"` twice invokes the engine on `"hello"` at most once; a cache holding
`("hi", "salut")` is hit without an engine call; an empty cache misses and
stores the translation under the exact text. -/
theorem translation_cache_at_most_once_witness :
    (listen_and_translate (fun u => u ++ "!") "fr"
        [IterEvent.speech "hello" okBeh, IterEvent.speech "hello" okBeh]
        ⟨[], []⟩).translateCalls.count "hello" ≤ 1 ∧
    processSpeech (fun u => u ++ "!") "fr" ⟨[("hi", "salut")], []⟩ "hi" okBeh =
      (⟨[("hi", "salut")], (text_to_speech "fr" "salut" okBeh []).fs⟩, [],
        (text_to_speech "fr" "salut" okBeh []).synthCalls) ∧
    processSpeech (fun u => u ++ "!") "fr" ⟨[], []⟩ "hi" okBeh =
      (⟨[("hi", "hi!")], (text_to_speech "fr" "hi!" okBeh []).fs⟩, ["hi"],
        (text_to_speech "fr" "hi!" okBeh []).synthCalls) :=
  ⟨(translation_cache_at_most_once (fun u => u ++ "!") "fr" []
      [IterEvent.speech "hello" okBeh, IterEvent.speech "hello" okBeh] "hello").1,
   (translation_cache_at_most_once (fun u => u ++ "!") "fr" [] [] "hello").2.1
      ⟨[("hi", "salut")], []⟩ "hi" okBeh "salut" rfl,
   (translation_cache_at_most_once (fun u => u ++ "!") "fr" [] [] "hello").2.2
      ⟨[], []⟩ "hi" okBeh rfl⟩
theorem run_speech_some_synth (translate : String → String) (tl : String) (st : SessionState)
    (u tr : String) (beh : TTSBeh) (rest : List IterEvent)
    (hl : st.translation_cache.lookup u = some tr) :
    (listen_and_translate translate tl (IterEvent.speech u beh :: rest) st).synthCalls =
      (text_to_speech tl tr beh st.fs).synthCalls ++
        (listen_and_translate translate tl rest
          ⟨st.translation_cache, (text_to_speech tl tr beh st.fs).fs⟩).synthCalls := by
  simp [listen_and_translate, processSpeech, hl]

theorem run_speech_some_state (translate : String → String) (tl : String) (st : SessionState)
    (u tr : String) (beh : TTSBeh) (rest : List IterEvent)
    (hl : st.translation_cache.lookup u = some tr) :
    (listen_and_translate translate tl (IterEvent.speech u beh :: rest) st).state =
      (listen_and_translate translate tl rest
        ⟨st.translation_cache, (text_to_speech tl tr beh st.fs).fs⟩).state := by
  simp [listen_and_translate, processSpeech, hl]

theorem run_speech_none_synth (translate : String → String) (tl : String) (st : SessionState)
    (u : String) (beh : TTSBeh) (rest : List IterEvent)
    (hl : st.translation_cache.lookup u = none) :
    (listen_and_translate translate tl (IterEvent.speech u beh :: rest) st).synthCalls =
      (text_to_speech tl (translate u) beh st.fs).synthCalls ++
        (listen_and_translate translate tl rest
          ⟨st.translation_cache ++ [(u, translate u)],
            (text_to_speech tl (translate u) beh st.fs).fs⟩).synthCalls := by
  simp [listen_and_translate, processSpeech, hl]

theorem run_speech_none_state (translate : String → String) (tl : String) (st : SessionState)
    (u : String) (beh : TTSBeh) (rest : List IterEvent)
    (hl : st.translation_cache.lookup u = none) :
    (listen_and_translate translate tl (IterEvent.speech u beh :: rest) st).state =
      (listen_and_translate translate tl rest
        ⟨st.translation_cache ++ [(u, translate u)],
          (text_to_speech tl (translate u) beh st.fs).fs⟩).state := by
  simp [listen_and_translate, processSpeech, hl]

theorem run_fs_monotone (translate : String → String) (tl : String) (x : String) :
    ∀ (evs : List IterEvent) (st : SessionState),
      x ∈ st.fs → x ∈ (listen_and_translate translate tl evs st).state.fs := by
  intro evs
  induction evs with
  | nil => intro st hx; exact hx
  | cons ev rest ih =>
      intro st hx
      cases ev with
      | timeout => simpa [listen_and_translate] using ih st hx
      | unintelligible => simpa [listen_and_translate] using ih st hx
      | recogError => simpa [listen_and_translate] using ih st hx
      | otherError => simpa [listen_and_translate] using ih st hx
      | cancel => simpa [listen_and_translate] using hx
      | speech u beh =>
          cases hl : st.translation_cache.lookup u with
          | some tr =>
              rw [run_speech_some_state translate tl st u tr beh rest hl]
              exact ih _ (text_to_speech_fs_monotone tl tr beh st.fs x hx)
          | none =>
              rw [run_speech_none_state translate tl st u beh rest hl]
              exact ih _ (text_to_speech_fs_monotone tl (translate u) beh st.fs x hx)

theorem count_tts_other (tl trans t : String) (beh : TTSBeh) (fs : List String)
    (hbeh : ∀ i, beh.saveOk i = true) (hne : trans ≠ t) :
    (text_to_speech tl trans beh fs).synthCalls.count t = 0 := by
  by_cases hc : get_audio_filename tl trans ∈ fs
  · rw [(text_to_speech_hit tl trans beh fs hc).1]
    rfl
  · rw [(text_to_speech_miss tl trans beh fs hbeh hc).1]
    simp [List.count_singleton, hne, Ne.symm hne]

theorem run_synth_count (translate : String → String) (tl t : String) :
    ∀ (evs : List IterEvent) (st : SessionState), (∀ ev ∈ evs, eventSavesOk ev) →
      (listen_and_translate translate tl evs st).synthCalls.count t ≤
        if get_audio_filename tl t ∈ st.fs then 0 else 1 := by
  intro evs
  induction evs with
  | nil => intro st _; simp [listen_and_translate]
  | cons ev rest ih =>
      intro st hsaves
      have hsrest : ∀ e ∈ rest, eventSavesOk e :=
        fun e he => hsaves e (List.mem_cons_of_mem _ he)
      cases ev with
      | timeout => simpa [listen_and_translate] using ih st hsrest
      | unintelligible => simpa [listen_and_translate] using ih st hsrest
      | recogError => simpa [listen_and_translate] using ih st hsrest
      | otherError => simpa [listen_and_translate] using ih st hsrest
      | cancel => simp [listen_and_translate]
      | speech u beh =>
          have hbeh : ∀ i, beh.saveOk i = true := hsaves _ (List.mem_cons_self _ _)
          cases hl : st.translation_cache.lookup u with
          | some tr =>
              rw [run_speech_some_synth translate tl st u tr beh rest hl, List.count_append]
              by_cases htr : tr = t
              · subst htr
                by_cases hmem : get_audio_filename tl tr ∈ st.fs
                · rw [if_pos hmem, (text_to_speech_hit tl tr beh st.fs hmem).1]
                  have hrec := ih ⟨st.translation_cache, (text_to_speech tl tr beh st.fs).fs⟩ hsrest
                  rw [if_pos ((text_to_speech_hit tl tr beh st.fs hmem).2 ▸
                    text_to_speech_fs_monotone tl tr beh st.fs _ hmem)] at hrec
                  simpa using hrec
                · rw [if_neg hmem, (text_to_speech_miss tl tr beh st.fs hbeh hmem).1]
                  have hrec := ih ⟨st.translation_cache, (text_to_speech tl tr beh st.fs).fs⟩ hsrest
                  rw [if_pos (text_to_speech_miss tl tr beh st.fs hbeh hmem).2] at hrec
                  have hz := Nat.le_zero.mp hrec
                  simp [hz, List.count_singleton]
              · rw [count_tts_other tl tr t beh st.fs hbeh htr]
                have hrec := ih ⟨st.translation_cache, (text_to_speech tl tr beh st.fs).fs⟩ hsrest
                by_cases hmem : get_audio_filename tl t ∈ st.fs
                · rw [if_pos hmem]
                  rw [if_pos (text_to_speech_fs_monotone tl tr beh st.fs _ hmem)] at hrec
                  simpa using hrec
                · rw [if_neg hmem]
                  have : (listen_and_translate translate tl rest
                      ⟨st.translation_cache, (text_to_speech tl tr beh st.fs).fs⟩).synthCalls.count t ≤ 1 := by
                    refine le_trans hrec ?_
                    split <;> omega
                  omega
          | none =>
              rw [run_speech_none_synth translate tl st u beh rest hl, List.count_append]
              by_cases htr : translate u = t
              · rw [htr]
                by_cases hmem : get_audio_filename tl t ∈ st.fs
                · rw [if_pos hmem, (text_to_speech_hit tl t beh st.fs hmem).1]
                  have hrec := ih ⟨st.translation_cache ++ [(u, translate u)],
                      (text_to_speech tl (translate u) beh st.fs).fs⟩ hsrest
                  rw [htr] at hrec
                  rw [if_pos ((text_to_speech_hit tl t beh st.fs hmem).2 ▸
                    text_to_speech_fs_monotone tl t beh st.fs _ hmem)] at hrec
                  simpa using hrec
                · rw [if_neg hmem, (text_to_speech_miss tl t beh st.fs hbeh hmem).1]
                  have hrec := ih ⟨st.translation_cache ++ [(u, translate u)],
                      (text_to_speech tl (translate u) beh st.fs).fs⟩ hsrest
                  rw [htr] at hrec
                  rw [if_pos (text_to_speech_miss tl t beh st.fs hbeh hmem).2] at hrec
                  have hz := Nat.le_zero.mp hrec
                  simp [hz, List.count_singleton]
              · rw [count_tts_other tl (translate u) t beh st.fs hbeh htr]
                have hrec := ih ⟨st.translation_cache ++ [(u, translate u)],
                    (text_to_speech tl (translate u) beh st.fs).fs⟩ hsrest
                by_cases hmem : get_audio_filename tl t ∈ st.fs
                · rw [if_pos hmem]
                  rw [if_pos (text_to_speech_fs_monotone tl (translate u) beh st.fs _ hmem)] at hrec
                  simpa using hrec
                · rw [if_neg hmem]
                  have : (listen_and_translate translate tl rest
                      ⟨st.translation_cache ++ [(u, translate u)],
                        (text_to_speech tl (translate u) beh st.fs).fs⟩).synthCalls.count t ≤ 1 := by
                    refine le_trans hrec ?_
                    split <;> omega
                  omega
theorem run_synth_reach (translate : String → String) (tl t : String) :
    ∀ (evs : List IterEvent) (st : SessionState), (∀ ev ∈ evs, eventSavesOk ev) →
      1 ≤ (listen_and_translate translate tl evs st).synthCalls.count t →
      get_audio_filename tl t ∈ (listen_and_translate translate tl evs st).state.fs := by
  intro evs
  induction evs with
  | nil => intro st _ hc; simp [listen_and_translate] at hc
  | cons ev rest ih =>
      intro st hsaves
      have hsrest : ∀ e ∈ rest, eventSavesOk e :=
        fun e he => hsaves e (List.mem_cons_of_mem _ he)
      cases ev with
      | timeout => intro hc; simp only [listen_and_translate] at hc ⊢; exact ih st hsrest hc
      | unintelligible =>
          intro hc
          simp only [listen_and_translate] at hc ⊢
          exact ih st hsrest hc
      | recogError =>
          intro hc
          simp only [listen_and_translate] at hc ⊢
          exact ih st hsrest hc
      | otherError =>
          intro hc
          simp only [listen_and_translate] at hc ⊢
          exact ih st hsrest hc
      | cancel => intro hc; simp [listen_and_translate] at hc
      | speech u beh =>
          have hbeh : ∀ i, beh.saveOk i = true := hsaves _ (List.mem_cons_self _ _)
          intro hc
          cases hl : st.translation_cache.lookup u with
          | some tr =>
              rw [run_speech_some_synth translate tl st u tr beh rest hl,
                List.count_append] at hc
              rw [run_speech_some_state translate tl st u tr beh rest hl]
              by_cases hrest : 1 ≤ (listen_and_translate translate tl rest
                  ⟨st.translation_cache, (text_to_speech tl tr beh st.fs).fs⟩).synthCalls.count t
              · exact ih _ hsrest hrest
              · have hfirst : 1 ≤ (text_to_speech tl tr beh st.fs).synthCalls.count t := by
                  omega
                by_cases hmem : get_audio_filename tl tr ∈ st.fs
                · rw [(text_to_speech_hit tl tr beh st.fs hmem).1] at hfirst
                  simp at hfirst
                · rw [(text_to_speech_miss tl tr beh st.fs hbeh hmem).1] at hfirst
                  have htr : tr = t := by
                    by_contra hne
                    simp [List.count_singleton, hne, Ne.symm hne] at hfirst
                  subst htr
                  exact run_fs_monotone translate tl _ rest _
                    (text_to_speech_miss tl tr beh st.fs hbeh hmem).2
          | none =>
              rw [run_speech_none_synth translate tl st u beh rest hl,
                List.count_append] at hc
              rw [run_speech_none_state translate tl st u beh rest hl]
              by_cases hrest : 1 ≤ (listen_and_translate translate tl rest
                  ⟨st.translation_cache ++ [(u, translate u)],
                    (text_to_speech tl (translate u) beh st.fs).fs⟩).synthCalls.count t
              · exact ih _ hsrest hrest
              · have hfirst : 1 ≤ (text_to_speech tl (translate u) beh st.fs).synthCalls.count t := by
                  omega
                by_cases hmem : get_audio_filename tl (translate u) ∈ st.fs
                · rw [(text_to_speech_hit tl (translate u) beh st.fs hmem).1] at hfirst
                  simp at hfirst
                · rw [(text_to_speech_miss tl (translate u) beh st.fs hbeh hmem).1] at hfirst
                  have htr : translate u = t := by
                    by_contra hne
                    simp [List.count_singleton, hne, Ne.symm hne] at hfirst
                  rw [← htr]
                  exact run_fs_monotone translate tl _ rest _
                    (text_to_speech_miss tl (translate u) beh st.fs hbeh hmem).2
/-! ## Claim C2: the content-addressed audio cache -/

/-- Claim C2: the audio cache is content-addressed — the artifact path is the
deterministic `audio_{targetLanguage}_{md5(translatedText)}.mp3` under the
cache directory; the synthesis engine is invoked only when no file exists at
that path, so (whenever each invocation succeeds in writing its file) a given
translated text is synthesized at most once across the session's lifetime,
including when the cache directory of a previous run is reused; a file already
present yields no synthesis call, and a missing file is treated as a cache
miss and regenerated. -/
theorem audio_cache_content_addressed (translate : String → String) (tl t : String) :
    (∀ (evs1 evs2 : List IterEvent) (c1 c2 : List (String × String)) (fs0 : List String),
        (∀ ev ∈ evs1, eventSavesOk ev) → (∀ ev ∈ evs2, eventSavesOk ev) →
        (listen_and_translate translate tl evs1 ⟨c1, fs0⟩).synthCalls.count t +
          (listen_and_translate translate tl evs2
            ⟨c2, (listen_and_translate translate tl evs1 ⟨c1, fs0⟩).state.fs⟩).synthCalls.count t
          ≤ 1) ∧
    (∀ (beh : TTSBeh) (fs : List String), get_audio_filename tl t ∈ fs →
        (text_to_speech tl t beh fs).synthCalls = [] ∧ (text_to_speech tl t beh fs).fs = fs) ∧
    (∀ (beh : TTSBeh) (fs : List String), (∀ i, beh.saveOk i = true) →
        get_audio_filename tl t ∉ fs →
        (text_to_speech tl t beh fs).synthCalls = [t] ∧
        get_audio_filename tl t ∈ (text_to_speech tl t beh fs).fs) ∧
    get_audio_filename tl t =
      "translation_cache/audio_" ++ tl ++ "_" ++ md5Hex t ++ ".mp3" := by
  refine ⟨?_, fun beh fs h => text_to_speech_hit tl t beh fs h,
    fun beh fs hs h => text_to_speech_miss tl t beh fs hs h, rfl⟩
  intro evs1 evs2 c1 c2 fs0 h1 h2
  have ha := run_synth_count translate tl t evs1 ⟨c1, fs0⟩ h1
  by_cases hge : 1 ≤ (listen_and_translate translate tl evs1 ⟨c1, fs0⟩).synthCalls.count t
  · have hreach := run_synth_reach translate tl t evs1 ⟨c1, fs0⟩ h1 hge
    have hb := run_synth_count translate tl t evs2
        ⟨c2, (listen_and_translate translate tl evs1 ⟨c1, fs0⟩).state.fs⟩ h2
    rw [if_pos hreach] at hb
    have ha1 : (listen_and_translate translate tl evs1 ⟨c1, fs0⟩).synthCalls.count t ≤ 1 := by
      refine le_trans ha ?_
      split <;> omega
    omega
  · have hb := run_synth_count translate tl t evs2
        ⟨c2, (listen_and_translate translate tl evs1 ⟨c1, fs0⟩).state.fs⟩ h2
    have hb1 : (listen_and_translate translate tl evs2
        ⟨c2, (listen_and_translate translate tl evs1 ⟨c1, fs0⟩).state.fs⟩).synthCalls.count t
        ≤ 1 := by
      refine le_trans hb ?_
      split <;> omega
    omega

/-- Witness for `audio_cache_content_addressed`: synthesizing the utterance
`"bonjour"` in a run and again in a second run that reuses the first run's
cache directory yields at most one synthesis call in total; a file already at
the deterministic path suppresses synthesis; a missing file triggers exactly
one regeneration; and the path has the documented md5 format. -/
theorem audio_cache_content_addressed_witness :
    (listen_and_translate (fun u => u) "fr" [IterEvent.speech "bonjour" okBeh]
          ⟨[], []⟩).synthCalls.count "bonjour" +
      (listen_and_translate (fun u => u) "fr" [IterEvent.speech "bonjour" okBeh]
          ⟨[], (listen_and_translate (fun u => u) "fr" [IterEvent.speech "bonjour" okBeh]
            ⟨[], []⟩).state.fs⟩).synthCalls.count "bonjour" ≤ 1 ∧
    (text_to_speech "fr" "bonjour" okBeh [get_audio_filename "fr" "bonjour"]).synthCalls = [] ∧
    (text_to_speech "fr" "bonjour" okBeh []).synthCalls = ["bonjour"] ∧
    get_audio_filename "fr" "bonjour" =
      "translation_cache/audio_" ++ "fr" ++ "_" ++ md5Hex "bonjour" ++ ".mp3" := by
  refine ⟨?_, ?_, ?_, ?_⟩
  · exact (audio_cache_content_addressed (fun u => u) "fr" "bonjour").1
      [IterEvent.speech "bonjour" okBeh] [IterEvent.speech "bonjour" okBeh] [] [] []
      (by intro ev hev; simp only [List.mem_singleton] at hev; subst hev; exact fun i => rfl)
      (by intro ev hev; simp only [List.mem_singleton] at hev; subst hev; exact fun i => rfl)
  · exact ((audio_cache_content_addressed (fun u => u) "fr" "bonjour").2.1 okBeh
      [get_audio_filename "fr" "bonjour"] (List.mem_singleton_self _)).1
  · exact ((audio_cache_content_addressed (fun u => u) "fr" "bonjour").2.2.1 okBeh []
      (fun i => rfl) (by simp)).1
  · exact (audio_cache_content_addressed (fun u => u) "fr" "bonjour").2.2.2
/-! ## Claim C4: the loop never manages the translation cache -/

theorem aText_injective : Function.Injective aText := by
  intro m n h
  have hdata : (aText m).data = (aText n).data := by rw [h]
  have hlen := congrArg List.length hdata
  simpa [aText] using hlen

theorem run_fresh_inserts (translate : String → String) (tl : String) :
    ∀ (ts : List String) (st : SessionState),
      (∀ x ∈ ts, x ∉ cacheKeys st) → ts.Nodup →
      cacheKeys (listen_and_translate translate tl
          (ts.map fun x => IterEvent.speech x okBeh) st).state =
        cacheKeys st ++ ts := by
  intro ts
  induction ts with
  | nil => intro st _ _; simp [listen_and_translate]
  | cons x rest ih =>
      intro st hfresh hnodup
      have hl : st.translation_cache.lookup x = none := by
        apply (lookup_eq_none_keys _ _).mpr
        simpa [cacheKeys] using hfresh x (List.mem_cons_self _ _)
      rw [List.map_cons]
      rw [run_speech_none_state translate tl st x okBeh _ hl]
      have hkeys2 : cacheKeys ⟨st.translation_cache ++ [(x, translate x)],
          (text_to_speech tl (translate x) okBeh st.fs).fs⟩ = cacheKeys st ++ [x] := by
        simp [cacheKeys]
      have hfresh2 : ∀ y ∈ rest, y ∉ cacheKeys ⟨st.translation_cache ++ [(x, translate x)],
          (text_to_speech tl (translate x) okBeh st.fs).fs⟩ := by
        intro y hy
        rw [hkeys2]
        simp only [List.mem_append, List.mem_singleton]
        rintro (hin | rfl)
        · exact hfresh y (List.mem_cons_of_mem _ hy) hin
        · exact (List.nodup_cons.mp hnodup).1 hy
      rw [ih ⟨st.translation_cache ++ [(x, translate x)],
          (text_to_speech tl (translate x) okBeh st.fs).fs⟩ hfresh2
          (List.Nodup.of_cons hnodup)]
      rw [hkeys2]
      simp

/-- Claim C4 (refuted — the code contradicts it): `manage_cache` is defined
but never invoked anywhere, so over every trace the session loop makes zero
eviction calls, and a trace of `n` distinct recognized utterances leaves `n`
entries in the translation cache — with `n = 1001` the cache exceeds the
default `max_cache_size = 1000` threshold and is never evicted. -/
theorem manage_cache_never_invoked_in_loop (translate : String → String) (tl : String) :
    (∀ (evs : List IterEvent) (st : SessionState),
        (listen_and_translate translate tl evs st).manageCalls = 0) ∧
    (∀ (fs0 : List String) (n : Nat),
        (listen_and_translate translate tl (distinctSpeechTrace n)
            ⟨[], fs0⟩).state.translation_cache.length = n) := by
  constructor
  · exact run_manageCalls_zero translate tl
  · intro fs0 n
    have hmap : distinctSpeechTrace n =
        ((List.range n).map aText).map fun x => IterEvent.speech x okBeh := by
      simp [distinctSpeechTrace, List.map_map]
    have hnodup : ((List.range n).map aText).Nodup :=
      (List.nodup_range n).map aText_injective
    have hfree : ∀ x ∈ (List.range n).map aText, x ∉ cacheKeys ⟨[], fs0⟩ := by
      intro x _
      simp [cacheKeys]
    have hkeys := run_fresh_inserts translate tl ((List.range n).map aText) ⟨[], fs0⟩
      hfree hnodup
    rw [hmap]
    have hlen := congrArg List.length hkeys
    simpa [cacheKeys] using hlen

/-! ## Claim C7: error containment in the session loop -/

theorem run_no_cancel (translate : String → String) (tl : String) :
    ∀ (evs : List IterEvent) (st : SessionState), (∀ ev ∈ evs, isCancel ev = false) →
      (listen_and_translate translate tl evs st).stopped = false ∧
      (listen_and_translate translate tl evs st).cleanupCalls = 0 := by
  intro evs
  induction evs with
  | nil => intro st _; exact ⟨rfl, rfl⟩
  | cons ev rest ih =>
      intro st h
      have hrest : ∀ e ∈ rest, isCancel e = false :=
        fun e he => h e (List.mem_cons_of_mem _ he)
      cases ev with
      | cancel => exact absurd (h _ (List.mem_cons_self _ _)) (by simp [isCancel])
      | timeout => simpa [listen_and_translate] using ih st hrest
      | unintelligible => simpa [listen_and_translate] using ih st hrest
      | recogError => simpa [listen_and_translate] using ih st hrest
      | otherError => simpa [listen_and_translate] using ih st hrest
      | speech u beh =>
          simpa [listen_and_translate] using
            ih (processSpeech translate tl st u beh).1 hrest

theorem run_cancel_cleanup (translate : String → String) (tl : String) :
    ∀ (evs : List IterEvent) (st : SessionState), IterEvent.cancel ∈ evs →
      (listen_and_translate translate tl evs st).stopped = true ∧
      (listen_and_translate translate tl evs st).cleanupCalls = 1 := by
  intro evs
  induction evs with
  | nil => intro st h; simp at h
  | cons ev rest ih =>
      intro st h
      cases ev with
      | cancel => exact ⟨rfl, rfl⟩
      | timeout =>
          have hm : IterEvent.cancel ∈ rest := by
            rcases List.mem_cons.mp h with h1 | h1
            · exact absurd h1 (by simp)
            · exact h1
          simpa [listen_and_translate] using ih st hm
      | unintelligible =>
          have hm : IterEvent.cancel ∈ rest := by
            rcases List.mem_cons.mp h with h1 | h1
            · exact absurd h1 (by simp)
            · exact h1
          simpa [listen_and_translate] using ih st hm
      | recogError =>
          have hm : IterEvent.cancel ∈ rest := by
            rcases List.mem_cons.mp h with h1 | h1
            · exact absurd h1 (by simp)
            · exact h1
          simpa [listen_and_translate] using ih st hm
      | otherError =>
          have hm : IterEvent.cancel ∈ rest := by
            rcases List.mem_cons.mp h with h1 | h1
            · exact absurd h1 (by simp)
            · exact h1
          simpa [listen_and_translate] using ih st hm
      | speech u beh =>
          have hm : IterEvent.cancel ∈ rest := by
            rcases List.mem_cons.mp h with h1 | h1
            · exact absurd h1 (by simp)
            · exact h1
          simpa [listen_and_translate] using
            ih (processSpeech translate tl st u beh).1 hm

theorem run_cancel_truncates (translate : String → String) (tl : String)
    (post : List IterEvent) :
    ∀ (pre : List IterEvent) (st : SessionState),
      listen_and_translate translate tl (pre ++ IterEvent.cancel :: post) st =
        listen_and_translate translate tl (pre ++ [IterEvent.cancel]) st := by
  intro pre
  induction pre with
  | nil => intro st; rfl
  | cons ev p ih =>
      intro st
      cases ev <;> simp [listen_and_translate, ih]

/-- Claim C7: every per-iteration error is contained inside the session loop —
a cancel-free trace never stops the session and never triggers cleanup; a
trace containing the user's `KeyboardInterrupt` stops it and runs the cleanup
sweep exactly once, and everything after the interrupt is never processed; a
capture timeout re-enters listening with no observable effect; an
unclassified error adds one 1-second cooldown and the loop resumes;
unintelligible audio and recognizer errors are reported and the loop
resumes. -/
theorem loop_error_containment (translate : String → String) (tl : String) :
    (∀ (evs : List IterEvent) (st : SessionState), (∀ ev ∈ evs, isCancel ev = false) →
        (listen_and_translate translate tl evs st).stopped = false ∧
        (listen_and_translate translate tl evs st).cleanupCalls = 0) ∧
    (∀ (evs : List IterEvent) (st : SessionState), IterEvent.cancel ∈ evs →
        (listen_and_translate translate tl evs st).stopped = true ∧
        (listen_and_translate translate tl evs st).cleanupCalls = 1) ∧
    (∀ (pre post : List IterEvent) (st : SessionState),
        listen_and_translate translate tl (pre ++ IterEvent.cancel :: post) st =
          listen_and_translate translate tl (pre ++ [IterEvent.cancel]) st) ∧
    (∀ (evs : List IterEvent) (st : SessionState),
        listen_and_translate translate tl (IterEvent.timeout :: evs) st =
          listen_and_translate translate tl evs st) ∧
    (∀ (evs : List IterEvent) (st : SessionState),
        (listen_and_translate translate tl (IterEvent.otherError :: evs) st).cooldowns =
          (listen_and_translate translate tl evs st).cooldowns + 1 ∧
        (listen_and_translate translate tl (IterEvent.otherError :: evs) st).stopped =
          (listen_and_translate translate tl evs st).stopped) ∧
    (∀ (evs : List IterEvent) (st : SessionState),
        (listen_and_translate translate tl (IterEvent.unintelligible :: evs) st).errorsReported =
          (listen_and_translate translate tl evs st).errorsReported + 1 ∧
        (listen_and_translate translate tl (IterEvent.recogError :: evs) st).errorsReported =
          (listen_and_translate translate tl evs st).errorsReported + 1) :=
  ⟨run_no_cancel translate tl, run_cancel_cleanup translate tl,
    fun pre post st => run_cancel_truncates translate tl post pre st,
    fun _ _ => rfl, fun _ _ => ⟨rfl, rfl⟩, fun _ _ => ⟨rfl, rfl⟩⟩

/-- Witness for `loop_error_containment`: a cancel-free trace of a timeout,
an unclassified error and an unintelligible utterance leaves the session
running with no cleanup; a trace interrupted by the user stops with exactly
one cleanup sweep. -/
theorem loop_error_containment_witness :
    (listen_and_translate (fun u => u) "fr"
        [IterEvent.timeout, IterEvent.otherError, IterEvent.unintelligible]
        ⟨[], []⟩).stopped = false ∧
    (listen_and_translate (fun u => u) "fr"
        [IterEvent.timeout, IterEvent.otherError, IterEvent.unintelligible]
        ⟨[], []⟩).cleanupCalls = 0 ∧
    (listen_and_translate (fun u => u) "fr"
        [IterEvent.otherError, IterEvent.cancel, IterEvent.timeout]
        ⟨[], []⟩).stopped = true ∧
    (listen_and_translate (fun u => u) "fr"
        [IterEvent.otherError, IterEvent.cancel, IterEvent.timeout]
        ⟨[], []⟩).cleanupCalls = 1 := by
  have h1 := (loop_error_containment (fun u => u) "fr").1
      [IterEvent.timeout, IterEvent.otherError, IterEvent.unintelligible] ⟨[], []⟩
      (by
        intro ev hev
        simp only [List.mem_cons, List.not_mem_nil, or_false] at hev
        rcases hev with rfl | rfl | rfl <;> rfl)
  have h2 := (loop_error_containment (fun u => u) "fr").2.1
      [IterEvent.otherError, IterEvent.cancel, IterEvent.timeout] ⟨[], []⟩ (by simp)
  exact ⟨h1.1, h1.2, h2.1, h2.2⟩
